import Mathlib

/-!
# AndroidVenture edge detector: the native frame pipeline

A shallow embedding of `app/src/main/cpp/edge_processor.cpp` and
`app/src/main/cpp/native-lib.cpp`.

* `cv.*` models the OpenCV routines the pipeline calls (`cv::Mat`, `cv::cvtColor`,
  `cv::resize`, `cv::Canny`).  OpenCV is an external library; the model follows its
  `imgproc` sources (`color.hpp`, `color_yuv.simd.hpp`, `color_rgb.simd.hpp`,
  `resize.cpp`) for 8-bit images.  A `cv::Exception` is an `Except.error`.
* `EdgeProcessor.*` are the four static methods of the class, statement by statement.
* `Java_com_androidventure_edgedetector_MainActivity_processFrame` is the JNI entry point.

Conventions: a byte is a `Nat` below 256; a C `int` is an `Int` and 32-bit results that
may overflow are reduced with `wrap32`; C division is `Int.tdiv`; a raw pointer is a
function from byte offsets to the bytes found there; allocation of images never fails.
-/

/-- Two's-complement reduction of an integer to the range of a 32-bit `int`. -/
def wrap32 (x : Int) : Int := (x + 2147483648) % 4294967296 - 2147483648

namespace cv

/-- The exceptions the modelled routines throw (`cv::Exception`). -/
inductive Exception where
  | StsAssert
  | StsInternal
  deriving DecidableEq, Repr

/-- A continuous 8-bit `cv::Mat` owned by the library: `rows`, `cols`, the channel count
and the byte stored at each offset from `data`.  Pixel `(r, c)`, channel `k`, is at offset
`(r * cols + c) * cn + k`. -/
structure Mat where
  rows : Nat
  cols : Nat
  cn : Nat
  data : Nat → Nat

/-- The default-constructed `cv::Mat()`: no rows, no columns, type `CV_8UC1`. -/
def Mat.nil : Mat := { rows := 0, cols := 0, cn := 1, data := fun _ => 0 }

/-- The method `Mat::channels()`. -/
def Mat.channels (m : Mat) : Nat := m.cn

/-- The method `Mat::total()`: the number of pixels. -/
def Mat.total (m : Mat) : Nat := m.rows * m.cols

/-- The method `Mat::elemSize()`: bytes per pixel (one byte per channel). -/
def Mat.elemSize (m : Mat) : Nat := m.cn

/-- The method `Mat::empty()`: no pixel (a library-owned image with pixels has data). -/
def Mat.empty (m : Mat) : Bool := m.total == 0

/-- Channel `k` of pixel `(r, c)`. -/
def Mat.at (m : Mat) (r c k : Nat) : Nat := m.data ((r * m.cols + c) * m.cn + k)

/-- The header made by `cv::Mat(rows, cols, CV_8UC1, data)` over caller memory.  That
constructor stores the two signed dimensions as they are given and does not look at the
memory: `data i` is the byte at offset `i` from the pointer. -/
structure UserMat where
  rows : Int
  cols : Int
  data : Nat → Nat

/-- The conversion `saturate_cast<uchar>`. -/
def saturate_cast (x : Int) : Nat :=
  if x < 0 then 0 else if 255 < x then 255 else x.toNat

/-- Offsets of the three bytes loaded for destination pixel `(r, c)` of a two-plane
4:2:0 frame with `rows` luma rows of `cols` bytes: the luma byte, then the V and the U
byte of the pixel's 2x2 block (NV21 stores V first). -/
structure NV21Offsets where
  y : Nat
  v : Nat
  u : Nat

/-- Where the bytes of pixel `(r, c)` are in the frame. -/
def nv21Offsets (rows cols r c : Nat) : NV21Offsets :=
  { y := r * cols + c
    v := (rows + r / 2) * cols + 2 * (c / 2)
    u := (rows + r / 2) * cols + 2 * (c / 2) + 1 }

/-- Channel `k` (0 = B, 1 = G, 2 = R) of the BT.601 video-range conversion of one
`(y, u, v)` sample: `uvToRGBuv` and `yRGBuvToRGBA` of `color_yuv.simd.hpp`, with
`ITUR_BT_601_CY = 1220542`, `CUB = 2116026`, `CUG = -409993`, `CVG = -852492`,
`CVR = 1673527` and `ITUR_BT_601_SHIFT = 20`. -/
def yuvToBGR (y u v k : Nat) : Nat :=
  let uu : Int := (u : Int) - 128
  let vv : Int := (v : Int) - 128
  let ruv : Int := 524288 + 1673527 * vv
  let guv : Int := 524288 + (-852492) * vv + (-409993) * uu
  let buv : Int := 524288 + 2116026 * uu
  let yy : Int := max 0 ((y : Int) - 16) * 1220542
  match k with
  | 0 => saturate_cast ((yy + buv) / 1048576)
  | 1 => saturate_cast ((yy + guv) / 1048576)
  | _ => saturate_cast ((yy + ruv) / 1048576)

/-- The byte at offset `off` of the BGR image converted from an NV21 frame. -/
def nv21Data (mem : Nat → Nat) (rows cols : Nat) (off : Nat) : Nat :=
  let o := nv21Offsets rows cols (off / 3 / cols) (off / 3 % cols)
  yuvToBGR (mem o.y % 256) (mem o.u % 256) (mem o.v % 256) (off % 3)

/-- The call `cv::cvtColor(src, dst, cv::COLOR_YUV2BGR_NV21)` on a user-data header
(`cvtColorTwoPlaneYUV2BGR`).  Its `CvtHelper` asserts that the source is not empty, that
its width is even and its height a multiple of 3, and allocates a destination of
`sz.height * 2 / 3` rows, an allocation that asserts both sizes are non-negative. -/
def cvtColorTwoPlaneYUV2BGR (src : UserMat) : Except Exception Mat :=
  if src.rows = 0 ∨ src.cols = 0 then .error .StsAssert
  else if src.cols.tmod 2 ≠ 0 ∨ src.rows.tmod 3 ≠ 0 then .error .StsAssert
  else
    let dstRows : Int := (wrap32 (src.rows * 2)).tdiv 3
    if src.cols < 0 ∨ dstRows < 0 then .error .StsAssert
    else .ok { rows := dstRows.toNat, cols := src.cols.toNat, cn := 3,
               data := nv21Data src.data dstRows.toNat src.cols.toNat }

/-- The conversion codes the pipeline passes to `cv::cvtColor` on library images. -/
inductive ColorConversionCodes where
  | COLOR_BGR2GRAY
  | COLOR_GRAY2RGBA
  | COLOR_BGR2RGBA
  deriving DecidableEq, Repr

/-- The 8-bit luminance of `RGB2Gray<uchar>` (`color_rgb.simd.hpp`): coefficients
`BY15 = 3735`, `GY15 = 19235`, `RY15 = 9798`, rounded and shifted right by 15. -/
def bgr2gray (b g r : Nat) : Nat := (b * 3735 + g * 19235 + r * 9798 + 16384) / 32768

/-- The call `cv::cvtColor(src, dst, code)` on an 8-bit image.  Every code asserts a
non-empty source and a supported source channel count; the destination has the size of
the source.  `COLOR_BGR2GRAY` weighs the first three channels, `COLOR_GRAY2RGBA` writes
`(g, g, g, 255)`, `COLOR_BGR2RGBA` swaps channels 0 and 2 and writes alpha 255 (the
source alpha when the source has four channels). -/
def cvtColor (src : Mat) (code : ColorConversionCodes) : Except Exception Mat :=
  if src.empty then .error .StsAssert
  else
    match code with
    | .COLOR_BGR2GRAY =>
      if src.cn = 3 ∨ src.cn = 4 then
        .ok { rows := src.rows, cols := src.cols, cn := 1,
              data := fun p =>
                bgr2gray (src.data (p * src.cn)) (src.data (p * src.cn + 1))
                  (src.data (p * src.cn + 2)) }
      else .error .StsAssert
    | .COLOR_GRAY2RGBA =>
      if src.cn = 1 then
        .ok { rows := src.rows, cols := src.cols, cn := 4,
              data := fun off => if off % 4 = 3 then 255 else src.data (off / 4) }
      else .error .StsAssert
    | .COLOR_BGR2RGBA =>
      if src.cn = 3 ∨ src.cn = 4 then
        .ok { rows := src.rows, cols := src.cols, cn := 4,
              data := fun off =>
                match off % 4 with
                | 0 => src.data (off / 4 * src.cn + 2)
                | 1 => src.data (off / 4 * src.cn + 1)
                | 2 => src.data (off / 4 * src.cn)
                | _ => if src.cn = 4 then src.data (off / 4 * src.cn + 3) else 255 }
      else .error .StsAssert

/-- The parts of OpenCV that are taken as parameters of the pipeline. -/
structure Backend where
  /-- The source index `cvFloor(x * ifx)` that nearest-neighbour resizing computes in
  double precision for destination index `x`, from the source and destination sizes. -/
  nearest : (ssize dsize x : Nat) → Nat
  /-- The edge map of `cv::Canny(image, edges, threshold1, threshold2, apertureSize,
  L2gradient)` as the bytes of a single-channel image of the size of `image`; `none`
  when the filter throws. -/
  canny : Mat → Nat → Nat → Nat → Bool → Option (Nat → Nat)

/-- The call `cv::resize(src, dst, cv::Size(width, height), 0, 0, cv::INTER_NEAREST)`.
It asserts a non-empty source; with an empty `dsize` the two scale factors are 0 and the
assertion `inv_scale_x > 0` throws.  Otherwise destination pixel `(r, c)` copies source
pixel `(min sy (rows - 1), min sx (cols - 1))`. -/
def resize (impl : Backend) (src : Mat) (width height : Int) : Except Exception Mat :=
  if src.empty then .error .StsAssert
  else if width ≤ 0 ∨ height ≤ 0 then .error .StsAssert
  else
    .ok { rows := height.toNat, cols := width.toNat, cn := src.cn,
          data := fun off =>
            let r := off / src.cn / width.toNat
            let c := off / src.cn % width.toNat
            src.at (min (impl.nearest src.rows height.toNat r) (src.rows - 1))
              (min (impl.nearest src.cols width.toNat c) (src.cols - 1)) (off % src.cn) }

/-- The call `cv::Canny(image, edges, threshold1, threshold2, apertureSize, L2gradient)`:
a single-channel edge map of the size of `image`, or an exception. -/
def Canny (impl : Backend) (image : Mat) (threshold1 threshold2 apertureSize : Nat)
    (L2gradient : Bool) : Except Exception Mat :=
  match impl.canny image threshold1 threshold2 apertureSize L2gradient with
  | none => .error .StsInternal
  | some edges => .ok { rows := image.rows, cols := image.cols, cn := 1, data := edges }

end cv

/-- Behaviour the C++ standard leaves undefined and the embedding makes explicit. -/
inductive Fault where
  | divisionByZero
  deriving DecidableEq, Repr

namespace EdgeProcessor

open cv

/-- The method `EdgeProcessor::yuv420ToBGR`: wrap the frame in a header of
`height + height / 2` rows and `width` columns and convert; an empty image on a
`cv::Exception`. -/
def yuv420ToBGR (yuvData : Nat → Nat) (width height : Int) : Mat :=
  let yuvImage : UserMat :=
    { rows := wrap32 (height + height.tdiv 2), cols := width, data := yuvData }
  match cvtColorTwoPlaneYUV2BGR yuvImage with
  | .ok bgrImage => bgrImage
  | .error _ => Mat.nil

/-- The method `EdgeProcessor::applyCanny`: grayscale (or a copy when the input does not
have 3 channels), then `cv::Canny(gray, edges, 30, 90, 3, false)`; the catch block
returns `input`. -/
def applyCanny (impl : Backend) (input : Mat) : Mat :=
  let body : Except Exception Mat := do
    let gray ← if input.channels = 3 then cvtColor input .COLOR_BGR2GRAY else pure input
    Canny impl gray 30 90 3 false
  match body with
  | .ok edges => edges
  | .error _ => input

/-- The method `EdgeProcessor::toRGBA`: convert to four channels by channel count, copy
`total() * elemSize()` bytes out; the empty vector for another channel count and on a
`cv::Exception`. -/
def toRGBA (input : Mat) : List Nat :=
  let converted : Option (Except Exception Mat) :=
    if input.channels = 1 then some (cvtColor input .COLOR_GRAY2RGBA)
    else if input.channels = 3 then some (cvtColor input .COLOR_BGR2RGBA)
    else if input.channels = 4 then some (.ok input)
    else none
  match converted with
  | none => []
  | some (.error _) => []
  | some (.ok rgba) =>
    let dataSize := rgba.total * rgba.elemSize
    (List.range dataSize).map rgba.data

/-- The expression `(height * targetWidth) / width` with `targetWidth = 480`, in 32-bit
arithmetic, for `width ≠ 0`. -/
def targetHeight (width height : Int) : Int := (wrap32 (height * 480)).tdiv width

/-- The method `EdgeProcessor::processFrame`.  `inputData` is the memory behind the
pointer.  The result is `.error .divisionByZero` when the division by `width` would be
evaluated with `width = 0`. -/
def processFrame (impl : Backend) (inputData : Nat → Nat) (width height : Int)
    (applyEdgeDetection : Bool) : Except Fault (List Nat) :=
  let bgrImage := yuv420ToBGR inputData width height
  if bgrImage.empty then .ok []
  else if width = 0 then .error .divisionByZero
  else
    let targetWidth : Int := 480
    match resize impl bgrImage targetWidth (targetHeight width height) with
    | .error _ => .ok []
    | .ok resized =>
      let processed : Except Exception Mat :=
        if applyEdgeDetection then .ok (applyCanny impl resized)
        else cvtColor resized .COLOR_BGR2GRAY
      match processed with
      | .error _ => .ok []
      | .ok processedImage => .ok (toRGBA processedImage)

end EdgeProcessor

/-- What the JNI environment decides for one call. -/
structure JNIEnv where
  /-- Whether `GetByteArrayElements` returns a non-null pointer. -/
  elementsAcquired : Bool
  /-- The bytes in memory after the last element of the array behind that pointer. -/
  beyond : Nat → Nat
  /-- Whether `NewByteArray(n)` returns a non-null array. -/
  newByteArray : Nat → Bool

/-- The memory seen through a pointer to the first byte of `array`, when `beyond i` is
the byte at offset `i` past its end. -/
def pointerTo (array : List Nat) (beyond : Nat → Nat) : Nat → Nat :=
  fun i => if h : i < array.length then array[i] else beyond i

/-- The JNI function `processFrame` of `native-lib.cpp`; `none` is `nullptr`. -/
def Java_com_androidventure_edgedetector_MainActivity_processFrame (env : JNIEnv)
    (impl : cv.Backend) (inputData : List Nat) (width height : Int)
    (applyEdgeDetection : Bool) : Except Fault (Option (List Nat)) :=
  if !env.elementsAcquired then .ok none
  else
    match EdgeProcessor.processFrame impl (pointerTo inputData env.beyond) width height
        applyEdgeDetection with
    | .error f => .error f
    | .ok processedData =>
      if processedData.isEmpty then .ok none
      else if !env.newByteArray processedData.length then .ok none
      else .ok (some processedData)

/-- The specification's description of the image `applyCanny` falls back to: `out` is
the single-channel luminance reduction of the colour image `input`. -/
def IsGrayscaleOf (out input : cv.Mat) : Prop :=
  out.channels = 1 ∧ out.rows = input.rows ∧ out.cols = input.cols ∧
    ∀ r c, r < input.rows → c < input.cols →
      out.at r c 0 = cv.bgr2gray (input.at r c 0) (input.at r c 1) (input.at r c 2)

/-- A backend that samples at the exact quotient and whose edge filter throws. -/
def failingBackend : cv.Backend :=
  { nearest := fun ssize dsize x => x * ssize / dsize
    canny := fun _ _ _ _ _ => none }

/-- A backend that samples at the exact quotient and whose edge filter finds no edge. -/
def exactBackend : cv.Backend :=
  { nearest := fun ssize dsize x => x * ssize / dsize
    canny := fun _ _ _ _ _ => some fun _ => 0 }

/-- A JNI environment in which the array is pinned and every allocation succeeds. -/
def okEnv : JNIEnv :=
  { elementsAcquired := true, beyond := fun _ => 0, newByteArray := fun _ => true }

/-- The environment `okEnv` with 255 in every byte after the array. -/
def brightEnv : JNIEnv :=
  { elementsAcquired := true, beyond := fun _ => 255, newByteArray := fun _ => true }

/-- A JNI environment in which `GetByteArrayElements` returns `nullptr`. -/
def noElementsEnv : JNIEnv :=
  { elementsAcquired := false, beyond := fun _ => 0, newByteArray := fun _ => true }

/-- An image of `rows` by `cols` pixels and `cn` channels holding the bytes of `bytes`. -/
def matOfList (rows cols cn : Nat) (bytes : List Nat) : cv.Mat :=
  { rows := rows, cols := cols, cn := cn, data := fun i => bytes.getD i 0 }

/-! ## Arithmetic and list lemmas -/

theorem wrap32_of_range {x : Int} (h1 : -2147483648 ≤ x) (h2 : x < 2147483648) :
    wrap32 x = x := by
  unfold wrap32; omega

theorem getElem?_map_range {α : Type} (f : Nat → α) {n i : Nat} (h : i < n) :
    ((List.range n).map f)[i]? = some (f i) := by
  simp [List.getElem?_map, List.getElem?_range h]

theorem pixel_index_lt {rows cols r c : Nat} (hr : r < rows) (hc : c < cols) :
    r * cols + c < rows * cols := by
  calc r * cols + c < r * cols + cols := by omega
    _ = (r + 1) * cols := by ring
    _ ≤ rows * cols := Nat.mul_le_mul_right cols hr

theorem pointerTo_replicate (n v : Nat) (beyond : Nat → Nat) {i : Nat} (hi : i < n) :
    pointerTo (List.replicate n v) beyond i = v := by
  simp [pointerTo, hi]

namespace EdgeProcessor

open cv

/-! ## The colour conversion -/

theorem targetHeight_of_range {width height : Int} (hw : 0 < width) (h0 : 0 ≤ height)
    (h1 : height ≤ 4473924) : targetHeight width height = height * 480 / width := by
  unfold targetHeight
  rw [wrap32_of_range (by omega) (by omega), Int.tdiv_eq_ediv (by omega) (by omega)]

theorem cvtColorTwoPlaneYUV2BGR_ok (mem : Nat → Nat) {width height : Int} (hw : 0 < width)
    (hh : 0 < height) (hwe : width % 2 = 0) (hhe : height % 2 = 0)
    (hb : height ≤ 715827882) :
    cvtColorTwoPlaneYUV2BGR
        { rows := wrap32 (height + height.tdiv 2), cols := width, data := mem } =
      .ok { rows := height.toNat, cols := width.toNat, cn := 3,
            data := nv21Data mem height.toNat width.toNat } := by
  have e1 : height.tdiv 2 = height / 2 := Int.tdiv_eq_ediv (by omega) (by omega)
  have e2 : wrap32 (height + height / 2) = height + height / 2 :=
    wrap32_of_range (by omega) (by omega)
  have e3 : wrap32 ((height + height / 2) * 2) = (height + height / 2) * 2 :=
    wrap32_of_range (by omega) (by omega)
  have e4 : ((height + height / 2) * 2).tdiv 3 = height := by
    rw [Int.tdiv_eq_ediv (by omega) (by omega)]; omega
  have e5 : width.tmod 2 = 0 := by
    rw [Int.tmod_eq_emod (by omega) (by omega)]; exact hwe
  have e6 : (height + height / 2).tmod 3 = 0 := by
    rw [Int.tmod_eq_emod (by omega) (by omega)]; omega
  have n1 : ¬ (height + height / 2 = 0 ∨ width = 0) := by omega
  have n2 : ¬ (width < 0 ∨ height < 0) := by omega
  simp [cvtColorTwoPlaneYUV2BGR, e1, e2, e3, e4, e5, e6, n1, n2]

theorem yuv420ToBGR_ok (mem : Nat → Nat) {width height : Int} (hw : 0 < width)
    (hh : 0 < height) (hwe : width % 2 = 0) (hhe : height % 2 = 0)
    (hb : height ≤ 715827882) :
    yuv420ToBGR mem width height =
      { rows := height.toNat, cols := width.toNat, cn := 3,
        data := nv21Data mem height.toNat width.toNat } := by
  unfold yuv420ToBGR
  dsimp only
  rw [cvtColorTwoPlaneYUV2BGR_ok mem hw hh hwe hhe hb]

theorem yuv420ToBGR_not_empty (mem : Nat → Nat) {width height : Int} (hw : 0 < width)
    (hh : 0 < height) (hwe : width % 2 = 0) (hhe : height % 2 = 0)
    (hb : height ≤ 715827882) : (yuv420ToBGR mem width height).empty = false := by
  rw [yuv420ToBGR_ok mem hw hh hwe hhe hb]
  have : height.toNat * width.toNat ≠ 0 := Nat.mul_ne_zero (by omega) (by omega)
  simpa [Mat.empty, Mat.total] using this

theorem cvtColorTwoPlaneYUV2BGR_nonpos_cols (src : UserMat) (h : src.cols ≤ 0) :
    ∃ e, cvtColorTwoPlaneYUV2BGR src = .error e := by
  unfold cvtColorTwoPlaneYUV2BGR
  dsimp only
  split_ifs with h1 h2 h3
  all_goals first | exact ⟨_, rfl⟩ | (exfalso; omega)

theorem yuv420ToBGR_nonpos_width (mem : Nat → Nat) {width : Int} (height : Int)
    (hw : width ≤ 0) : yuv420ToBGR mem width height = Mat.nil := by
  obtain ⟨e, he⟩ := cvtColorTwoPlaneYUV2BGR_nonpos_cols
    { rows := wrap32 (height + height.tdiv 2), cols := width, data := mem } hw
  simp [yuv420ToBGR, he]

/-- The empty-image check of `processFrame` precedes the division: no call divides by
a zero width. -/
theorem processFrame_no_fault (impl : Backend) (mem : Nat → Nat) (width height : Int)
    (flag : Bool) : ∃ out, processFrame impl mem width height flag = .ok out := by
  unfold processFrame
  dsimp only
  by_cases h1 : (yuv420ToBGR mem width height).empty = true
  · rw [if_pos h1]; exact ⟨_, rfl⟩
  · rw [if_neg h1]
    by_cases h2 : width = 0
    · exfalso
      rw [h2, yuv420ToBGR_nonpos_width mem height (le_refl 0)] at h1
      exact h1 rfl
    · rw [if_neg h2]
      cases flag <;> split <;> (try split) <;> exact ⟨_, rfl⟩

/-! ## The output packer -/

theorem toRGBA_of_gray (m : Mat) (hc : m.cn = 1) (hne : m.empty = false) :
    toRGBA m = (List.range (m.rows * m.cols * 4)).map
      fun off => if off % 4 = 3 then 255 else m.data (off / 4) := by
  simp [toRGBA, Mat.channels, cvtColor, hc, hne, Mat.total, Mat.elemSize]

theorem toRGBA_of_bgr (m : Mat) (hc : m.cn = 3) (hne : m.empty = false) :
    toRGBA m = (List.range (m.rows * m.cols * 4)).map
      fun off =>
        match off % 4 with
        | 0 => m.data (off / 4 * 3 + 2)
        | 1 => m.data (off / 4 * 3 + 1)
        | 2 => m.data (off / 4 * 3)
        | _ => 255 := by
  simp [toRGBA, Mat.channels, cvtColor, hc, hne, Mat.total, Mat.elemSize]

theorem toRGBA_of_empty (m : Mat) (he : m.empty = true) : toRGBA m = [] := by
  have ht : m.rows * m.cols = 0 := by simpa [Mat.empty, Mat.total] using he
  unfold toRGBA
  dsimp only
  split_ifs with h1 h3 h4 <;>
    simp [cvtColor, he, Mat.total, Mat.elemSize, ht]

theorem toRGBA_length (m : Mat) (hc : m.cn = 1 ∨ m.cn = 3 ∨ m.cn = 4) :
    (toRGBA m).length = m.rows * m.cols * 4 := by
  cases he : m.empty
  · rcases hc with hc | hc | hc
    · rw [toRGBA_of_gray m hc he]; simp
    · rw [toRGBA_of_bgr m hc he]; simp
    · simp [toRGBA, Mat.channels, hc, Mat.total, Mat.elemSize]
  · have ht : m.rows * m.cols = 0 := by simpa [Mat.empty, Mat.total] using he
    rw [toRGBA_of_empty m he, ht]; rfl

/-! ## The pipeline on a well-formed frame -/

theorem resize_ok (impl : Backend) (src : Mat) {width height : Int}
    (hne : src.empty = false) (hw : 0 < width) (hh : 0 < height) :
    resize impl src width height =
      .ok { rows := height.toNat, cols := width.toNat, cn := src.cn,
            data := fun off =>
              src.at (min (impl.nearest src.rows height.toNat (off / src.cn / width.toNat))
                  (src.rows - 1))
                (min (impl.nearest src.cols width.toNat (off / src.cn % width.toNat))
                  (src.cols - 1)) (off % src.cn) } := by
  have n1 : ¬ (width ≤ 0 ∨ height ≤ 0) := by omega
  simp [resize, hne, n1]

theorem resize_shape (impl : Backend) (src : Mat) {width height : Int}
    (hne : src.empty = false) (hw : 0 < width) (hh : 0 < height) :
    ∃ dst, resize impl src width height = .ok dst ∧ dst.rows = height.toNat ∧
      dst.cols = width.toNat ∧ dst.cn = src.cn ∧ dst.empty = false ∧
      ∀ off, ∃ r c, r < src.rows ∧ c < src.cols ∧ dst.data off = src.at r c (off % src.cn) := by
  have hs : src.rows * src.cols ≠ 0 := by simpa [Mat.empty, Mat.total] using hne
  have hr : 0 < src.rows := Nat.pos_of_ne_zero fun h => hs (by rw [h, Nat.zero_mul])
  have hc : 0 < src.cols := Nat.pos_of_ne_zero fun h => hs (by rw [h, Nat.mul_zero])
  refine ⟨_, resize_ok impl src hne hw hh, rfl, rfl, rfl, ?_, ?_⟩
  · have : height.toNat * width.toNat ≠ 0 := Nat.mul_ne_zero (by omega) (by omega)
    simpa [Mat.empty, Mat.total] using this
  · intro off
    exact ⟨_, _, by omega, by omega, rfl⟩

theorem cvtColor_gray_ok (src : Mat) (hne : src.empty = false) (h3 : src.cn = 3) :
    cvtColor src .COLOR_BGR2GRAY =
      .ok { rows := src.rows, cols := src.cols, cn := 1,
            data := fun p =>
              bgr2gray (src.data (p * 3)) (src.data (p * 3 + 1)) (src.data (p * 3 + 2)) } := by
  simp [cvtColor, hne, h3]

theorem cvtColor_gray_inv (src g : Mat) (h : cvtColor src .COLOR_BGR2GRAY = .ok g) :
    g.cn = 1 ∧ g.empty = false ∧ g.rows = src.rows ∧ g.cols = src.cols := by
  unfold cvtColor at h
  cases he : src.empty
  · rw [he] at h
    simp only [Bool.false_eq_true, if_false] at h
    split_ifs at h with hc
    injection h with h
    subst h
    exact ⟨rfl, he, rfl, rfl⟩
  · rw [he] at h
    simp at h

/-- The shape of every grayscale-path result: empty, or the packing of a non-empty
single-channel image. -/
theorem processFrame_gray_shape (impl : Backend) (mem : Nat → Nat) (width height : Int)
    (out : List Nat) (h : processFrame impl mem width height false = .ok out) :
    out = [] ∨ ∃ g : Mat, g.cn = 1 ∧ g.empty = false ∧ out = toRGBA g := by
  unfold processFrame at h
  dsimp only at h
  by_cases h1 : (yuv420ToBGR mem width height).empty = true
  · rw [if_pos h1] at h
    left; injection h with h; exact h.symm
  · rw [if_neg h1] at h
    by_cases h2 : width = 0
    · rw [if_pos h2] at h; cases h
    · rw [if_neg h2] at h
      simp only [Bool.false_eq_true, if_false] at h
      split at h
      · left; injection h with h; exact h.symm
      · split at h
        · left; injection h with h; exact h.symm
        · rename_i g hg
          right
          obtain ⟨a, b, _, _⟩ := cvtColor_gray_inv _ g hg
          injection h with h
          exact ⟨g, a, b, h.symm⟩

/-- Beyond `height = 4473924` the product wraps: for a 2 x 4473926 frame the target
height is negative, the resize throws and the result is empty. -/
theorem processFrame_wrapped_height (impl : Backend) (mem : Nat → Nat) (flag : Bool) :
    processFrame impl mem 2 4473926 flag = .ok [] := by
  have hne := yuv420ToBGR_not_empty mem (show (0 : Int) < 2 by decide)
    (show (0 : Int) < 4473926 by decide) (by decide) (by decide) (by decide)
  have hT : targetHeight 2 4473926 = -1073741408 := by decide
  have n1 : (480 : Int) ≤ 0 ∨ (-1073741408 : Int) ≤ 0 := Or.inr (by decide)
  unfold processFrame
  dsimp only
  rw [hne, hT]
  simp only [Bool.false_eq_true, if_false, resize, hne, if_pos n1]
  rfl

/-! ## Frames of uniform colour -/

theorem yuvToBGR_mid (k : Nat) : yuvToBGR 128 128 128 k = 130 := by
  rcases k with _ | _ | k <;> rfl

theorem nv21_last_offset_lt {H W r c : Nat} (hH : H % 2 = 0) (hW : W % 2 = 0)
    (hr : r < H) (hc : c < W) :
    (H + r / 2) * W + 2 * (c / 2) + 1 < W * (H + H / 2) := by
  have h1 : 2 * (c / 2) + 1 < W := by omega
  have h2 : H + r / 2 + 1 ≤ H + H / 2 := by omega
  calc (H + r / 2) * W + 2 * (c / 2) + 1 < (H + r / 2) * W + W := by omega
    _ = (H + r / 2 + 1) * W := by ring
    _ ≤ (H + H / 2) * W := Nat.mul_le_mul_right W h2
    _ = W * (H + H / 2) := Nat.mul_comm _ _

theorem nv21Data_pixel (mem : Nat → Nat) {H W r c k : Nat} (hc : c < W) (hk : k < 3) :
    nv21Data mem H W ((r * W + c) * 3 + k) =
      yuvToBGR (mem (nv21Offsets H W r c).y % 256) (mem (nv21Offsets H W r c).u % 256)
        (mem (nv21Offsets H W r c).v % 256) k := by
  have hW : 0 < W := by omega
  have e1 : ((r * W + c) * 3 + k) / 3 = r * W + c := by omega
  have e2 : ((r * W + c) * 3 + k) % 3 = k := by omega
  have e3 : (r * W + c) / W = r := by
    rw [Nat.add_comm, Nat.add_mul_div_right _ _ hW, Nat.div_eq_of_lt hc, Nat.zero_add]
  have e4 : (r * W + c) % W = c := by
    rw [Nat.add_comm, Nat.add_mul_mod_self_right, Nat.mod_eq_of_lt hc]
  simp only [nv21Data, e1, e2, e3, e4]

theorem nv21Data_flat (mem : Nat → Nat) {H W r c k : Nat} (hH : H % 2 = 0)
    (hW : W % 2 = 0) (hmem : ∀ i, i < W * (H + H / 2) → mem i % 256 = 128)
    (hr : r < H) (hc : c < W) (hk : k < 3) :
    nv21Data mem H W ((r * W + c) * 3 + k) = 130 := by
  have hu := nv21_last_offset_lt hH hW hr hc
  have hy : r * W + c < W * (H + H / 2) := by
    have := pixel_index_lt hr hc
    calc r * W + c < H * W := this
      _ ≤ (H + H / 2) * W := Nat.mul_le_mul_right W (by omega)
      _ = W * (H + H / 2) := Nat.mul_comm _ _
  rw [nv21Data_pixel mem hc hk]
  simp only [nv21Offsets]
  rw [hmem _ hy, hmem _ hu, hmem _ (by omega), yuvToBGR_mid]

/-- The grayscale path on a frame whose converted pixels all have the same channel
values `f 0`, `f 1`, `f 2`. -/
theorem processFrame_uniform (impl : Backend) (mem : Nat → Nat) (width height : Int)
    (hw : 0 < width) (hh : 0 < height) (hwe : width % 2 = 0) (hhe : height % 2 = 0)
    (hb : height ≤ 4473924) (hth : 0 < height * 480 / width) (f : Nat → Nat)
    (hpix : ∀ r c k, r < height.toNat → c < width.toNat → k < 3 →
      nv21Data mem height.toNat width.toNat ((r * width.toNat + c) * 3 + k) = f k) :
    processFrame impl mem width height false =
      .ok ((List.range ((height * 480 / width).toNat * 480 * 4)).map
        fun off => if off % 4 = 3 then 255 else bgr2gray (f 0) (f 1) (f 2)) := by
  have hbgr := yuv420ToBGR_ok mem hw hh hwe hhe (by omega)
  have hT := targetHeight_of_range hw (le_of_lt hh) hb
  have hne := yuv420ToBGR_not_empty mem hw hh hwe hhe (by omega)
  have hw0 : ¬ width = 0 := by omega
  obtain ⟨R, hR, hrows, hcols, hcn, hRne, hdata⟩ :=
    resize_shape impl (yuv420ToBGR mem width height) hne (show (0 : Int) < 480 by decide) hth
  have hcn3 : R.cn = 3 := by rw [hcn, hbgr]
  have hunif : ∀ off, R.data off = f (off % 3) := by
    intro off
    obtain ⟨r, c, hr, hc, e⟩ := hdata off
    rw [e, hbgr]
    rw [hbgr] at hr hc
    have hr2 : r < height.toNat := hr
    have hc2 : c < width.toNat := hc
    have hk : off % 3 < 3 := Nat.mod_lt _ (by decide)
    exact hpix r c (off % 3) hr2 hc2 hk
  have m0 : ∀ p : Nat, p * 3 % 3 = 0 := fun p => by omega
  have m1 : ∀ p : Nat, (p * 3 + 1) % 3 = 1 := fun p => by omega
  have m2 : ∀ p : Nat, (p * 3 + 2) % 3 = 2 := fun p => by omega
  unfold processFrame
  dsimp only
  rw [hne, hT]
  simp only [Bool.false_eq_true, if_false, if_neg hw0]
  rw [hR]
  dsimp only
  rw [cvtColor_gray_ok R hRne hcn3]
  dsimp only
  rw [toRGBA_of_gray _ rfl (by simpa [Mat.empty, Mat.total] using hRne)]
  simp only [hunif, hrows, hcols, m0, m1, m2]
  rfl

theorem processFrame_flat (impl : Backend) (mem : Nat → Nat) (width height : Int)
    (hw : 0 < width) (hh : 0 < height) (hwe : width % 2 = 0) (hhe : height % 2 = 0)
    (hb : height ≤ 4473924) (hth : 0 < height * 480 / width)
    (hmem : ∀ i, i < width.toNat * (height.toNat + height.toNat / 2) → mem i % 256 = 128) :
    processFrame impl mem width height false =
      .ok ((List.range ((height * 480 / width).toNat * 480 * 4)).map
        fun off => if off % 4 = 3 then 255 else 130) := by
  have hH2 : height.toNat % 2 = 0 := by omega
  have hW2 : width.toNat % 2 = 0 := by omega
  exact processFrame_uniform impl mem width height hw hh hwe hhe hb hth (fun _ => 130)
    fun r c k hr hc hk => nv21Data_flat mem hH2 hW2 hmem hr hc hk

/-- The pixels converted from a 2 x 2 frame share its single chroma pair, at offsets 4
and 5. -/
theorem nv21Data_2x2 (mem : Nat → Nat) (r c k : Nat) (hr : r < 2) (hc : c < 2) (hk : k < 3) :
    nv21Data mem 2 2 ((r * 2 + c) * 3 + k) =
      yuvToBGR (mem (r * 2 + c) % 256) (mem 5 % 256) (mem 4 % 256) k := by
  rw [nv21Data_pixel mem hc hk]
  have e1 : (2 + r / 2) * 2 + 2 * (c / 2) = 4 := by
    have : r / 2 = 0 := by omega
    have : c / 2 = 0 := by omega
    simp [*]
  simp only [nv21Offsets, e1]

/-- The grayscale path on a 2 x 2 frame whose first five bytes are 128: the result is
flat, with the intensity decided by the byte at offset 5. -/
theorem processFrame_2x2 (impl : Backend) (mem : Nat → Nat)
    (hmem : ∀ i, i < 5 → mem i = 128) :
    processFrame impl mem 2 2 false =
      .ok ((List.range 921600).map fun off =>
        if off % 4 = 3 then 255
        else bgr2gray (yuvToBGR 128 (mem 5 % 256) 128 0) (yuvToBGR 128 (mem 5 % 256) 128 1)
          (yuvToBGR 128 (mem 5 % 256) 128 2)) :=
  processFrame_uniform impl mem 2 2 (by decide) (by decide) (by decide) (by decide)
    (by decide) (by decide) (fun k => yuvToBGR 128 (mem 5 % 256) 128 k)
    fun r c k hr hc hk => by
      have hr2 : r < 2 := hr
      have hc2 : c < 2 := hc
      show nv21Data mem 2 2 ((r * 2 + c) * 3 + k) = yuvToBGR 128 (mem 5 % 256) 128 k
      rw [nv21Data_2x2 mem r c k hr2 hc2 hk, hmem (r * 2 + c) (by omega), hmem 4 (by decide)]

end EdgeProcessor

open cv EdgeProcessor

/-! ## The JNI boundary -/

theorem jni_result_of_nonempty (env : JNIEnv) (impl : Backend) (frame : List Nat)
    (width height : Int) (flag : Bool) (out : List Nat)
    (hacq : env.elementsAcquired = true)
    (hpf : processFrame impl (pointerTo frame env.beyond) width height flag = .ok out)
    (hne : out ≠ []) (hnew : env.newByteArray out.length = true) :
    Java_com_androidventure_edgedetector_MainActivity_processFrame env impl frame width
      height flag = .ok (some out) := by
  simp [Java_com_androidventure_edgedetector_MainActivity_processFrame, hacq, hpf, hne, hnew]

theorem jni_null_of_not_acquired (env : JNIEnv) (impl : Backend) (frame : List Nat)
    (width height : Int) (flag : Bool) (hacq : env.elementsAcquired = false) :
    Java_com_androidventure_edgedetector_MainActivity_processFrame env impl frame width
      height flag = .ok none := by
  simp [Java_com_androidventure_edgedetector_MainActivity_processFrame, hacq]

theorem jni_null_of_empty (env : JNIEnv) (impl : Backend) (frame : List Nat)
    (width height : Int) (flag : Bool)
    (hpf : processFrame impl (pointerTo frame env.beyond) width height flag = .ok []) :
    Java_com_androidventure_edgedetector_MainActivity_processFrame env impl frame width
      height flag = .ok none := by
  cases h : env.elementsAcquired <;>
    simp [Java_com_androidventure_edgedetector_MainActivity_processFrame, h, hpf]

theorem jni_null_of_not_allocated (env : JNIEnv) (impl : Backend) (frame : List Nat)
    (width height : Int) (flag : Bool) (out : List Nat)
    (hpf : processFrame impl (pointerTo frame env.beyond) width height flag = .ok out)
    (hnew : env.newByteArray out.length = false) :
    Java_com_androidventure_edgedetector_MainActivity_processFrame env impl frame width
      height flag = .ok none := by
  cases h : env.elementsAcquired <;> cases h2 : out.isEmpty <;>
    simp [Java_com_androidventure_edgedetector_MainActivity_processFrame, h, hpf, hnew, h2]

theorem processFrame_flat_960x2 :
    processFrame exactBackend (fun _ => 128) 960 2 false =
      .ok ((List.range 1920).map fun off => if off % 4 = 3 then 255 else 130) :=
  EdgeProcessor.processFrame_flat exactBackend (fun _ => 128) 960 2
    (by decide) (by decide) (by decide) (by decide) (by decide) (by decide) (fun _ _ => rfl)

theorem processFrame_flat_640x480 (impl : Backend) (beyond : Nat → Nat) :
    processFrame impl (pointerTo (List.replicate 460800 128) beyond) 640 480 false =
      .ok ((List.range 691200).map fun off => if off % 4 = 3 then 255 else 130) :=
  EdgeProcessor.processFrame_flat impl (pointerTo (List.replicate 460800 128) beyond)
    640 480
    (by decide) (by decide) (by decide) (by decide) (by decide) (by decide)
    (fun i hi => by
      have hi2 : i < 460800 := hi
      rw [pointerTo_replicate 460800 128 beyond hi2])

/-- The load past the end of a short buffer is observable: a 5-byte buffer passed as a
2 x 2 frame gives different images when the byte after the buffer is 0 and when it
is 255. -/
theorem short_frame_result_depends_on_next_byte :
    Java_com_androidventure_edgedetector_MainActivity_processFrame okEnv exactBackend
        (List.replicate 5 128) 2 2 false ≠
      Java_com_androidventure_edgedetector_MainActivity_processFrame brightEnv exactBackend
        (List.replicate 5 128) 2 2 false := by
  have h0 := EdgeProcessor.processFrame_2x2 exactBackend
    (pointerTo (List.replicate 5 128) okEnv.beyond)
    (fun i hi => pointerTo_replicate 5 128 _ hi)
  have h1 := EdgeProcessor.processFrame_2x2 exactBackend
    (pointerTo (List.replicate 5 128) brightEnv.beyond)
    (fun i hi => pointerTo_replicate 5 128 _ hi)
  have e0 : pointerTo (List.replicate 5 128) okEnv.beyond 5 = 0 := by
    simp [pointerTo, okEnv]
  have e1 : pointerTo (List.replicate 5 128) brightEnv.beyond 5 = 255 := by
    simp [pointerTo, brightEnv]
  rw [e0] at h0
  rw [e1] at h1
  have g0 : bgr2gray (yuvToBGR 128 (0 % 256) 128 0) (yuvToBGR 128 (0 % 256) 128 1)
      (yuvToBGR 128 (0 % 256) 128 2) = 145 := by decide
  have g1 : bgr2gray (yuvToBGR 128 (255 % 256) 128 0) (yuvToBGR 128 (255 % 256) 128 1)
      (yuvToBGR 128 (255 % 256) 128 2) = 115 := by decide
  rw [g0] at h0
  rw [g1] at h1
  have n0 : ((List.range 921600).map fun off => if off % 4 = 3 then 255 else 145) ≠ [] := by
    intro h
    have := congrArg List.length h
    rw [List.length_map, List.length_range] at this
    exact absurd this (by decide)
  have n1 : ((List.range 921600).map fun off => if off % 4 = 3 then 255 else 115) ≠ [] := by
    intro h
    have := congrArg List.length h
    rw [List.length_map, List.length_range] at this
    exact absurd this (by decide)
  rw [jni_result_of_nonempty okEnv exactBackend _ 2 2 false _ rfl h0 n0 rfl,
    jni_result_of_nonempty brightEnv exactBackend _ 2 2 false _ rfl h1 n1 rfl]
  intro h
  injection h with h
  injection h with h
  have h2 := congrArg (fun l : List Nat => l[0]?) h
  simp only [] at h2
  rw [getElem?_map_range _ (by decide), getElem?_map_range _ (by decide)] at h2
  revert h2
  decide

/-! ## C1: the length of the output -/

/-- C3: whenever `processFrame` with `applyEdgeDetection = false` returns `out`, every
4-byte pixel of `out` has its first three bytes equal and its fourth byte 255. -/
theorem processFrame_gray_pixels (impl : Backend) (mem : Nat → Nat) (width height : Int)
    (out : List Nat) (hout : processFrame impl mem width height false = .ok out)
    (p : Nat) (hp : 4 * p + 3 < out.length) :
    out.length % 4 = 0 ∧
      ∃ g, out[4 * p]? = some g ∧ out[4 * p + 1]? = some g ∧ out[4 * p + 2]? = some g ∧
        out[4 * p + 3]? = some 255 := by
  rcases EdgeProcessor.processFrame_gray_shape impl mem width height out hout with h | h
  · subst h
    simp at hp
  · obtain ⟨g, hc, hne, rfl⟩ := h
    rw [EdgeProcessor.toRGBA_of_gray g hc hne] at hp ⊢
    simp only [List.length_map, List.length_range] at hp ⊢
    refine ⟨by omega, g.data p, ?_, ?_, ?_, ?_⟩
    · rw [getElem?_map_range _ (by omega)]
      have e1 : ¬ (4 * p % 4 = 3) := by omega
      have e2 : 4 * p / 4 = p := by omega
      rw [if_neg e1, e2]
    · rw [getElem?_map_range _ (by omega)]
      have e1 : ¬ ((4 * p + 1) % 4 = 3) := by omega
      have e2 : (4 * p + 1) / 4 = p := by omega
      rw [if_neg e1, e2]
    · rw [getElem?_map_range _ (by omega)]
      have e1 : ¬ ((4 * p + 2) % 4 = 3) := by omega
      have e2 : (4 * p + 2) / 4 = p := by omega
      rw [if_neg e1, e2]
    · rw [getElem?_map_range _ (by omega)]
      have e1 : (4 * p + 3) % 4 = 3 := by omega
      rw [if_pos e1]

/-- Witness for C3: the 960 x 2 frame of constant value 128, at pixel 7 of its 480 x 1
output. -/
theorem processFrame_gray_pixels_witness :
    processFrame exactBackend (fun _ => 128) 960 2 false =
        .ok ((List.range 1920).map fun off => if off % 4 = 3 then 255 else 130) ∧
      4 * 7 + 3 < ((List.range 1920).map fun off => if off % 4 = 3 then 255 else 130).length ∧
      (((List.range 1920).map fun off => if off % 4 = 3 then 255 else 130).length % 4 = 0 ∧
        ∃ g, ((List.range 1920).map fun off => if off % 4 = 3 then 255 else 130)[4 * 7]?
              = some g ∧
          ((List.range 1920).map fun off => if off % 4 = 3 then 255 else 130)[4 * 7 + 1]?
              = some g ∧
          ((List.range 1920).map fun off => if off % 4 = 3 then 255 else 130)[4 * 7 + 2]?
              = some g ∧
          ((List.range 1920).map fun off => if off % 4 = 3 then 255 else 130)[4 * 7 + 3]?
              = some 255) :=
  ⟨processFrame_flat_960x2, by rw [List.length_map, List.length_range]; decide,
    processFrame_gray_pixels exactBackend (fun _ => 128) 960 2 _ processFrame_flat_960x2 7
      (by rw [List.length_map, List.length_range]; decide)⟩

/-! ## C4: failure of the edge filter -/

/-- C4 (as stated, refuted): with an edge filter that throws, `applyCanny` on the 1x1
colour image `(10, 20, 30)` does not return the grayscale reduction of that image. -/
theorem applyCanny_fallback_not_grayscale :
    (∀ gray, Canny failingBackend gray 30 90 3 false = .error .StsInternal) ∧
      ¬ IsGrayscaleOf (applyCanny failingBackend (matOfList 1 1 3 [10, 20, 30]))
          (matOfList 1 1 3 [10, 20, 30]) := by
  refine ⟨fun _ => rfl, ?_⟩
  intro h
  have h1 : (applyCanny failingBackend (matOfList 1 1 3 [10, 20, 30])).channels = 1 := h.1
  revert h1
  decide

/-- C4 (amended): when the edge filter throws on the grayscale of a 3-channel image,
`applyCanny` returns its input unchanged: the 3-channel colour image, not a grayscale
image. -/
theorem applyCanny_failure_returns_input (impl : Backend) (input : Mat)
    (h3 : input.channels = 3)
    (hfail : ∀ gray, cvtColor input .COLOR_BGR2GRAY = .ok gray →
      ∃ e, Canny impl gray 30 90 3 false = .error e) :
    applyCanny impl input = input ∧ (applyCanny impl input).channels = 3 := by
  have key : applyCanny impl input = input := by
    unfold applyCanny
    dsimp only
    rw [if_pos h3]
    cases hg : cvtColor input .COLOR_BGR2GRAY with
    | error e => rfl
    | ok gray =>
      obtain ⟨e, he⟩ := hfail gray hg
      simp [bind, Except.bind, he]
  exact ⟨key, by rw [key]; exact h3⟩

/-- Witness for C4 (amended): the 1x1 colour image `(10, 20, 30)` and a filter that
throws. -/
theorem applyCanny_failure_returns_input_witness :
    (matOfList 1 1 3 [10, 20, 30]).channels = 3 ∧
      (applyCanny failingBackend (matOfList 1 1 3 [10, 20, 30]) =
          matOfList 1 1 3 [10, 20, 30] ∧
        (applyCanny failingBackend (matOfList 1 1 3 [10, 20, 30])).channels = 3) :=
  ⟨rfl, applyCanny_failure_returns_input failingBackend (matOfList 1 1 3 [10, 20, 30]) rfl
    (fun _ _ => ⟨_, rfl⟩)⟩

/-! ## C5: unsupported channel counts -/

/-- C5: an image whose channel count is not 1, 3 or 4 is packed to the empty byte
sequence, and a non-empty image with 1, 3 or 4 channels to a non-empty one. -/
theorem toRGBA_empty_iff_unsupported (bad good : Mat)
    (hbad : bad.channels ≠ 1 ∧ bad.channels ≠ 3 ∧ bad.channels ≠ 4)
    (hne : good.empty = false)
    (hgood : good.channels = 1 ∨ good.channels = 3 ∨ good.channels = 4) :
    toRGBA bad = [] ∧ toRGBA good ≠ [] := by
  constructor
  · obtain ⟨h1, h3, h4⟩ := hbad
    simp [toRGBA, h1, h3, h4]
  · intro h
    have hl := toRGBA_length good hgood
    rw [h, List.length_nil] at hl
    have ht : good.rows * good.cols ≠ 0 := by simpa [Mat.empty, Mat.total] using hne
    omega

/-- Witness for C5: a 1x1 two-channel image packs to nothing, a 1x1 gray image does not. -/
theorem toRGBA_empty_iff_unsupported_witness :
    ((matOfList 1 1 2 [7, 9]).channels ≠ 1 ∧ (matOfList 1 1 2 [7, 9]).channels ≠ 3 ∧
        (matOfList 1 1 2 [7, 9]).channels ≠ 4) ∧
      (matOfList 1 1 1 [7]).empty = false ∧
      (toRGBA (matOfList 1 1 2 [7, 9]) = [] ∧ toRGBA (matOfList 1 1 1 [7]) ≠ []) :=
  ⟨by decide, by decide,
    toRGBA_empty_iff_unsupported (matOfList 1 1 2 [7, 9]) (matOfList 1 1 1 [7])
      (by decide) (by decide) (by decide)⟩

/-! ## C6: the layout of a packed colour image -/

/-- C6: a 3-channel image of `w x h` pixels is packed to exactly `w * h * 4` bytes, row
after row without padding, and the pixel with channel values `(A, B, C)` at row `r`,
column `c` is found at byte offset `(r * w + c) * 4` as `(C, B, A, 255)`. -/
theorem toRGBA_bgr_layout (m : Mat) (h3 : m.channels = 3) (r c : Nat)
    (hr : r < m.rows) (hc : c < m.cols) :
    (toRGBA m).length = m.cols * m.rows * 4 ∧
      (toRGBA m)[(r * m.cols + c) * 4]? = some (m.at r c 2) ∧
      (toRGBA m)[(r * m.cols + c) * 4 + 1]? = some (m.at r c 1) ∧
      (toRGBA m)[(r * m.cols + c) * 4 + 2]? = some (m.at r c 0) ∧
      (toRGBA m)[(r * m.cols + c) * 4 + 3]? = some 255 := by
  have hcn : m.cn = 3 := h3
  have hp := pixel_index_lt hr hc
  have hne : m.empty = false := by
    have : m.rows * m.cols ≠ 0 := by omega
    simpa [Mat.empty, Mat.total] using this
  refine ⟨by rw [toRGBA_length m (Or.inr (Or.inl hcn))]; ring, ?_, ?_, ?_, ?_⟩
  · rw [toRGBA_of_bgr m hcn hne, getElem?_map_range _ (by omega)]
    have e1 : (r * m.cols + c) * 4 % 4 = 0 := by omega
    have e2 : (r * m.cols + c) * 4 / 4 = r * m.cols + c := by omega
    simp only [e1, e2, Mat.at, hcn]
  · rw [toRGBA_of_bgr m hcn hne, getElem?_map_range _ (by omega)]
    have e1 : ((r * m.cols + c) * 4 + 1) % 4 = 1 := by omega
    have e2 : ((r * m.cols + c) * 4 + 1) / 4 = r * m.cols + c := by omega
    simp only [e1, e2, Mat.at, hcn]
  · rw [toRGBA_of_bgr m hcn hne, getElem?_map_range _ (by omega)]
    have e1 : ((r * m.cols + c) * 4 + 2) % 4 = 2 := by omega
    have e2 : ((r * m.cols + c) * 4 + 2) / 4 = r * m.cols + c := by omega
    simp only [e1, e2, Mat.at, hcn, Nat.add_zero]
  · rw [toRGBA_of_bgr m hcn hne, getElem?_map_range _ (by omega)]
    have e1 : ((r * m.cols + c) * 4 + 3) % 4 = 3 := by omega
    simp only [e1]

/-- Witness for C6: the 1x2 image with pixels `(1, 2, 3)` and `(4, 5, 6)`, at its second
pixel. -/
theorem toRGBA_bgr_layout_witness :
    (matOfList 1 2 3 [1, 2, 3, 4, 5, 6]).channels = 3 ∧
      0 < (matOfList 1 2 3 [1, 2, 3, 4, 5, 6]).rows ∧
      1 < (matOfList 1 2 3 [1, 2, 3, 4, 5, 6]).cols ∧
      ((toRGBA (matOfList 1 2 3 [1, 2, 3, 4, 5, 6])).length = 2 * 1 * 4 ∧
        (toRGBA (matOfList 1 2 3 [1, 2, 3, 4, 5, 6]))[(0 * 2 + 1) * 4]? = some 6 ∧
        (toRGBA (matOfList 1 2 3 [1, 2, 3, 4, 5, 6]))[(0 * 2 + 1) * 4 + 1]? = some 5 ∧
        (toRGBA (matOfList 1 2 3 [1, 2, 3, 4, 5, 6]))[(0 * 2 + 1) * 4 + 2]? = some 4 ∧
        (toRGBA (matOfList 1 2 3 [1, 2, 3, 4, 5, 6]))[(0 * 2 + 1) * 4 + 3]? = some 255) :=
  ⟨rfl, by decide, by decide,
    toRGBA_bgr_layout (matOfList 1 2 3 [1, 2, 3, 4, 5, 6]) rfl 0 1 (by decide) (by decide)⟩

/-! ## C7: the null result -/

/-- C7 (as stated, refuted): for a 3 x 2 frame the pipeline yields an empty image (the
width is odd); the value returned then is the value returned when
`GetByteArrayElements` fails. -/
theorem null_result_not_distinct :
    noElementsEnv.elementsAcquired = false ∧
      (okEnv.elementsAcquired = true ∧
        processFrame exactBackend (pointerTo (List.replicate 9 128) okEnv.beyond) 3 2 false
          = .ok []) ∧
      Java_com_androidventure_edgedetector_MainActivity_processFrame noElementsEnv
          exactBackend (List.replicate 9 128) 3 2 false =
        Java_com_androidventure_edgedetector_MainActivity_processFrame okEnv
          exactBackend (List.replicate 9 128) 3 2 false := by
  have h : processFrame exactBackend (pointerTo (List.replicate 9 128) okEnv.beyond) 3 2
      false = .ok [] := by
    rfl
  refine ⟨rfl, ⟨rfl, h⟩, ?_⟩
  rw [jni_null_of_not_acquired _ _ _ _ _ _ rfl, jni_null_of_empty _ _ _ _ _ _ h]

/-- C7 (amended): at the call boundary a marshalling failure (the input elements cannot
be obtained, or the output array cannot be allocated) and a pipeline that yields an
empty processed image return the same value, `nullptr`: the returned value does not tell
the two outcomes apart. -/
theorem null_result_shared (envA envB : JNIEnv) (impl : Backend)
    (frameA frameB : List Nat) (widthA heightA widthB heightB : Int) (flagA flagB : Bool)
    (hA : envA.elementsAcquired = false ∨
      ∃ out, processFrame impl (pointerTo frameA envA.beyond) widthA heightA flagA = .ok out ∧
        envA.newByteArray out.length = false)
    (hB : envB.elementsAcquired = true ∧
      processFrame impl (pointerTo frameB envB.beyond) widthB heightB flagB = .ok []) :
    Java_com_androidventure_edgedetector_MainActivity_processFrame envA impl frameA widthA
        heightA flagA = .ok none ∧
      Java_com_androidventure_edgedetector_MainActivity_processFrame envB impl frameB widthB
        heightB flagB = .ok none := by
  constructor
  · rcases hA with hA | ⟨out, h1, h2⟩
    · exact jni_null_of_not_acquired _ _ _ _ _ _ hA
    · exact jni_null_of_not_allocated _ _ _ _ _ _ out h1 h2
  · exact jni_null_of_empty _ _ _ _ _ _ hB.2

/-- Witness for C7 (amended): a failed `GetByteArrayElements` against a 3 x 2 frame. -/
theorem null_result_shared_witness :
    (noElementsEnv.elementsAcquired = false ∨
        ∃ out, processFrame exactBackend (pointerTo (List.replicate 9 128) noElementsEnv.beyond)
            3 2 false = .ok out ∧ noElementsEnv.newByteArray out.length = false) ∧
      (okEnv.elementsAcquired = true ∧
        processFrame exactBackend (pointerTo (List.replicate 9 128) okEnv.beyond) 3 2 false
          = .ok []) ∧
      (Java_com_androidventure_edgedetector_MainActivity_processFrame noElementsEnv
          exactBackend (List.replicate 9 128) 3 2 false = .ok none ∧
        Java_com_androidventure_edgedetector_MainActivity_processFrame okEnv
          exactBackend (List.replicate 9 128) 3 2 false = .ok none) :=
  ⟨Or.inl rfl, ⟨rfl, rfl⟩,
    null_result_shared noElementsEnv okEnv exactBackend (List.replicate 9 128)
      (List.replicate 9 128) 3 2 3 2 false false (Or.inl rfl) ⟨rfl, rfl⟩⟩

/-! ## C8: the flat gray frame -/

/-- C8 (as stated, refuted): the 640 x 480 frame of 460800 bytes all equal to 128 is not
turned into pixels `(128, 128, 128, 255)`. -/
theorem flat_frame_not_128 :
    ¬ ∃ out, processFrame exactBackend (pointerTo (List.replicate 460800 128) fun _ => 0)
        640 480 false = .ok out ∧ out.length = 691200 ∧
      ∀ p, p < 172800 → out[4 * p]? = some 128 ∧ out[4 * p + 1]? = some 128 ∧
        out[4 * p + 2]? = some 128 ∧ out[4 * p + 3]? = some 255 := by
  rintro ⟨out, h1, -, h3⟩
  rw [processFrame_flat_640x480] at h1
  injection h1 with h1
  subst h1
  have h := (h3 0 (by decide)).1
  rw [getElem?_map_range _ (by decide)] at h
  revert h
  decide

/-- C8 (amended): for the 640 x 480 raw frame of 460800 bytes all equal to 128,
`processFrame` with `applyEdgeDetection = false` returns exactly 691200 bytes in which
every 4-byte pixel is `(130, 130, 130, 255)`: the colour conversion treats luma as
video-range, so luma 128 becomes intensity 130. -/
theorem flat_frame_130 (impl : Backend) (beyond : Nat → Nat) (p : Nat) (hp : p < 172800) :
    ∃ out, processFrame impl (pointerTo (List.replicate 460800 128) beyond) 640 480 false
        = .ok out ∧ out.length = 480 * 360 * 4 ∧
      out[4 * p]? = some 130 ∧ out[4 * p + 1]? = some 130 ∧ out[4 * p + 2]? = some 130 ∧
      out[4 * p + 3]? = some 255 := by
  refine ⟨_, processFrame_flat_640x480 impl beyond, ?_, ?_, ?_, ?_, ?_⟩
  · rw [List.length_map, List.length_range]
  · rw [getElem?_map_range _ (by omega)]
    have e1 : ¬ (4 * p % 4 = 3) := by omega
    rw [if_neg e1]
  · rw [getElem?_map_range _ (by omega)]
    have e1 : ¬ ((4 * p + 1) % 4 = 3) := by omega
    rw [if_neg e1]
  · rw [getElem?_map_range _ (by omega)]
    have e1 : ¬ ((4 * p + 2) % 4 = 3) := by omega
    rw [if_neg e1]
  · rw [getElem?_map_range _ (by omega)]
    have e1 : (4 * p + 3) % 4 = 3 := by omega
    rw [if_pos e1]

/-- Witness for C8 (amended): the last pixel of the output. -/
theorem flat_frame_130_witness :
    172799 < 172800 ∧
      ∃ out, processFrame exactBackend (pointerTo (List.replicate 460800 128) fun _ => 255)
          640 480 false = .ok out ∧ out.length = 480 * 360 * 4 ∧
        out[4 * 172799]? = some 130 ∧ out[4 * 172799 + 1]? = some 130 ∧
        out[4 * 172799 + 2]? = some 130 ∧ out[4 * 172799 + 3]? = some 255 :=
  ⟨by decide, flat_frame_130 exactBackend (fun _ => 255) 172799 (by decide)⟩

/-! ## C9: no division by a zero width -/

/-- C9: with `width ≤ 0` the colour conversion returns an empty image and
`processFrame` returns the empty byte sequence at the empty-image check, so the division
by `width` is not evaluated. -/
theorem processFrame_nonpos_width (impl : Backend) (mem : Nat → Nat) (width height : Int)
    (flag : Bool) (hw : width ≤ 0) :
    (yuv420ToBGR mem width height).empty = true ∧
      processFrame impl mem width height flag = .ok [] := by
  have h := yuv420ToBGR_nonpos_width mem height hw
  have he : (yuv420ToBGR mem width height).empty = true := by rw [h]; rfl
  refine ⟨he, ?_⟩
  unfold processFrame
  dsimp only
  rw [if_pos he]

/-- Witness for C9: width 0 and height 480. -/
theorem processFrame_nonpos_width_witness :
    (0 : Int) ≤ 0 ∧
      ((yuv420ToBGR (fun _ => 128) 0 480).empty = true ∧
        processFrame exactBackend (fun _ => 128) 0 480 true = .ok []) :=
  ⟨le_refl 0, processFrame_nonpos_width exactBackend (fun _ => 128) 0 480 true (le_refl 0)⟩

/-! ## C10: the target height -/

